import Mathlib

/-!
Shallow embedding of `mini_v8/ffi.cc`: the tagged-value wire format
(`ValueDesc`), the persistent-handle lifecycle, try/catch outcome capture
(`TryCatchDesc`), the object/array/coercion/function operations, and the
native-callback registration/finalization protocol.

Engine internals (property lookup, the coercion machinery, the collector's
choice of what to collect) are external collaborators of the bridge; they
appear below as explicit oracle parameters.  Everything else is translated
directly from the C++ source.  `v8::Persistent` handles are modelled by an
explicit table from handle ids to the engine values they retain, together
with creation/release counters (the instrumentation the spec's testable
properties ask for).  Doubles only ever cross the bridge as opaque payloads
(no arithmetic is performed on them), so their payload is modelled by `Rat`.
-/

namespace MiniV8

/-- The reference-carrying `ValueDescTag`s (`Array`, `Function`, `Object`,
`String`). -/
inductive RefTag where
  | arr
  | fn
  | obj
  | str
  deriving DecidableEq, Repr

/-- An engine (`v8::Local<v8::Value>`) value as observable through the bridge.
Heap values carry a referent identity `r`; `errorObject` is the object built
by `v8::Exception::Error` (a plain object for the `IsXxx` classification
chain) carrying its message; `other` is a heap value that is none of the
classified kinds (e.g. a symbol). -/
inductive JSValue where
  | undefined
  | null
  | boolean (b : Bool)
  | number (x : Rat)
  | date (ms : Rat)
  | str (r : Nat)
  | arr (r : Nat)
  | fn (r : Nat)
  | obj (r : Nat)
  | errorObject (msg : String)
  | other (r : Nat)
  deriving DecidableEq, Repr

/-- The engine values that classify into one of the `ValueDesc` variants
(everything except the `other` catch-all); these are exactly the values the
host can reach through the public operations. -/
def classifiable : JSValue → Bool
  | .other _ => false
  | _ => true

/-- `struct ValueDesc`: tag plus payload.  The `Boolean` byte payload is
modelled by `Bool` (the source writes byte 1 for true, 0 for false, and
decodes by `byte != 0`); the reference-carrying variants hold the id of the
`v8::Persistent<v8::Value>` they own. -/
inductive ValueDesc where
  | vNull
  | vUndefined
  | vNumber (x : Rat)
  | vBoolean (b : Bool)
  | vDate (ms : Rat)
  | vRef (tag : RefTag) (h : Nat)
  deriving DecidableEq, Repr

/-- The persistent handles a `ValueDesc` owns (one for a reference variant,
none otherwise). -/
def ValueDesc.refHandles : ValueDesc → List Nat
  | .vRef _ h => [h]
  | _ => []

/-- All handles owned by a list of descriptors. -/
def refHandlesOf : List ValueDesc → List Nat
  | [] => []
  | d :: rest => d.refHandles ++ refHandlesOf rest

/-- `struct TryCatchDesc`: an FFI outcome.  `is_exception` is the `uint8_t`
of the source (the trampoline tests it with `!= 0`). -/
structure TryCatchDesc where
  value_desc : ValueDesc
  is_exception : Nat
  deriving DecidableEq, Repr

/-- The observable state of a `v8::TryCatch` at the point `try_catch_err`
inspects it: the live exception value and whether execution was forcibly
terminated. -/
structure TryCatchInfo where
  exception : JSValue
  hasTerminated : Bool
  deriving DecidableEq, Repr

/-- The persistent-handle state of one isolate: the id allocator, the table
of live handles (id, retained value), and creation/release counters (the
instrumentation for handle-balance properties). -/
structure HandleState where
  next : Nat
  table : List (Nat × JSValue)
  created : Nat
  released : Nat
  deriving DecidableEq, Repr

/-- `new v8::Persistent<v8::Value>(isolate, value)`: a fresh strong handle. -/
def HandleState.alloc (st : HandleState) (v : JSValue) : HandleState :=
  { st with
      next := st.next + 1
      table := (st.next, v) :: st.table
      created := st.created + 1 }

/-- Reading through a persistent handle (`value_ptr->Get(isolate)` /
`v8::Local<v8::Value>::New(isolate, *value_ptr)`): does not consume it. -/
def HandleState.lookup (st : HandleState) (h : Nat) : Option JSValue :=
  (st.table.find? (fun p => p.1 == h)).map (fun p => p.2)

/-- `value_ptr->Reset(); delete value_ptr;` — releases the handle.  The
release counter records every Reset/delete the code performs. -/
def HandleState.release (st : HandleState) (h : Nat) : HandleState :=
  { st with
      table := st.table.eraseP (fun p => p.1 == h)
      released := st.released + 1 }

/-- Whether a handle id is currently live. -/
def HandleState.hasHandle (st : HandleState) (h : Nat) : Bool :=
  st.table.any (fun p => p.1 == h)

/-- Well-formed handle state: ids are unique and below the allocator. -/
def WF (st : HandleState) : Prop :=
  (st.table.map Prod.fst).Nodup ∧ ∀ p ∈ st.table, p.1 < st.next

/-- `value->IsInt32()`: the numeric value is an exact 32-bit integer. -/
def isInt32 (x : Rat) : Bool :=
  x.den == 1 && ((-(2 ^ 31) : Int) ≤ x.num && x.num < 2 ^ 31)

/-- `value_to_desc`: converts an engine value to a `ValueDesc`, following the
source's `IsUndefined/IsNull/IsTrue/IsFalse/IsInt32/IsNumber/IsDate/IsString/
IsArray/IsFunction/IsObject` chain.  Reference kinds get a freshly created
strong persistent handle to the value; the final `else` yields `Undefined`.
Total by construction — there is no failure path. -/
def value_to_desc (st : HandleState) (v : JSValue) : ValueDesc × HandleState :=
  match v with
  | .undefined => (.vUndefined, st)
  | .null => (.vNull, st)
  | .boolean true => (.vBoolean true, st)
  | .boolean false => (.vBoolean false, st)
  | .number x =>
      -- `IsInt32` branch: `(double)value->Int32Value(context).ToChecked()`;
      -- the int32 is widened back to the same numeric value.
      if isInt32 x then (.vNumber (x.num : Rat), st) else (.vNumber x, st)
  | .date ms => (.vDate ms, st)
  | .str _ => (.vRef .str st.next, st.alloc v)
  | .arr _ => (.vRef .arr st.next, st.alloc v)
  | .fn _ => (.vRef .fn st.next, st.alloc v)
  | .obj _ => (.vRef .obj st.next, st.alloc v)
  | .errorObject _ => (.vRef .obj st.next, st.alloc v)
  | .other _ => (.vUndefined, st)

/-- `desc_to_value`: converts a `ValueDesc` back to an engine value.  For a
reference variant it promotes the handle's referent to a local and then
frees the handle (`Reset(); delete`); a dangling handle id is a caller
contract violation and decodes to `undefined` in the model.  The `switch`
default (including the `Undefined` tag) returns `undefined`. -/
def desc_to_value (st : HandleState) (d : ValueDesc) : JSValue × HandleState :=
  match d with
  | .vNull => (.null, st)
  | .vNumber x => (.number x, st)
  | .vBoolean b => (.boolean b, st)
  | .vDate ms => (.date ms, st)
  | .vRef _ h => ((st.lookup h).getD JSValue.undefined, st.release h)
  | .vUndefined => (.undefined, st)

/-- `EXECUTION_TIMEOUT_MESSAGE`. -/
def EXECUTION_TIMEOUT_MESSAGE : String := "execution timed out"

/-- `try_catch_err`: captures the `v8::TryCatch`'s exception.  If execution
was terminated, the captured value is replaced by a synthesized
`v8::Exception::Error` carrying the fixed timeout message.  (The source also
prints diagnostics to stdout; that side effect is not modelled.) -/
def try_catch_err (st : HandleState) (tc : TryCatchInfo) : TryCatchDesc × HandleState :=
  let value :=
    if tc.hasTerminated then JSValue.errorObject EXECUTION_TIMEOUT_MESSAGE
    else tc.exception
  (⟨(value_to_desc st value).1, 1⟩, (value_to_desc st value).2)

/-- `try_catch_ok`: a success outcome wrapping the given value. -/
def try_catch_ok (st : HandleState) (v : JSValue) : TryCatchDesc × HandleState :=
  (⟨(value_to_desc st v).1, 0⟩, (value_to_desc st v).2)

/-- `try_catch_ok_noval`: a success outcome with no value attached
(`Undefined` tag, zero payload byte). -/
def try_catch_ok_noval : TryCatchDesc :=
  ⟨.vUndefined, 0⟩

/-- `try_catch_ok_val`: a success outcome with a raw `ValueDesc` attached. -/
def try_catch_ok_val (desc : ValueDesc) : TryCatchDesc :=
  ⟨desc, 0⟩

/-- Result of an engine call that runs inside a try-catch scope: either a
value or a caught exception (as observed through the `v8::TryCatch`). -/
inductive EngineRes (α : Type) where
  | ok (a : α)
  | thrown (tc : TryCatchInfo)

/-- The argument-decoding loops of `mv8_function_call` / `mv8_function_call_new`:
each descriptor is decoded (releasing its handle) in order. -/
def decodeArgs : HandleState → List ValueDesc → List JSValue × HandleState
  | st, [] => ([], st)
  | st, d :: rest =>
      ((desc_to_value st d).1 :: (decodeArgs (desc_to_value st d).2 rest).1,
       (decodeArgs (desc_to_value st d).2 rest).2)

/-- The argument-encoding loop of `rust_callback` (the native-callback
trampoline): each argument is encoded in call order. -/
def encodeArgs : HandleState → List JSValue → List ValueDesc × HandleState
  | st, [] => ([], st)
  | st, v :: rest =>
      ((value_to_desc st v).1 :: (encodeArgs (value_to_desc st v).2 rest).1,
       (encodeArgs (value_to_desc st v).2 rest).2)

/-- `mv8_object_get`: reads the object through its (non-consumed) handle,
decodes the key descriptor, then asks the engine; an empty result means the
try-catch caught. -/
def mv8_object_get (st : HandleState) (object : Nat) (key_desc : ValueDesc)
    (engGet : JSValue → JSValue → EngineRes JSValue) : TryCatchDesc × HandleState :=
  let local_object := (st.lookup object).getD JSValue.undefined
  let st1 := (desc_to_value st key_desc).2
  match engGet local_object (desc_to_value st key_desc).1 with
  | .thrown tc => try_catch_err st1 tc
  | .ok v => try_catch_ok st1 v

/-- `mv8_object_set`: decodes the key, then the value (both before the engine
call, so no early exit can skip a release), then sets. -/
def mv8_object_set (st : HandleState) (object : Nat) (key_desc value_desc : ValueDesc)
    (engSet : JSValue → JSValue → JSValue → EngineRes Unit) : TryCatchDesc × HandleState :=
  let local_object := (st.lookup object).getD JSValue.undefined
  let st1 := (desc_to_value st key_desc).2
  let st2 := (desc_to_value st1 value_desc).2
  match engSet local_object (desc_to_value st key_desc).1 (desc_to_value st1 value_desc).1 with
  | .thrown tc => try_catch_err st2 tc
  | .ok _ => (try_catch_ok_noval, st2)

/-- `mv8_object_remove`: decodes the key, then deletes. -/
def mv8_object_remove (st : HandleState) (object : Nat) (key_desc : ValueDesc)
    (engDelete : JSValue → JSValue → EngineRes Unit) : TryCatchDesc × HandleState :=
  let local_object := (st.lookup object).getD JSValue.undefined
  let st1 := (desc_to_value st key_desc).2
  match engDelete local_object (desc_to_value st key_desc).1 with
  | .thrown tc => try_catch_err st1 tc
  | .ok _ => (try_catch_ok_noval, st1)

/-- `mv8_object_has`: decodes the key, then queries; a success outcome holds
a `Boolean` descriptor with byte 1 or 0. -/
def mv8_object_has (st : HandleState) (object : Nat) (key_desc : ValueDesc)
    (engHas : JSValue → JSValue → EngineRes Bool) : TryCatchDesc × HandleState :=
  let local_object := (st.lookup object).getD JSValue.undefined
  let st1 := (desc_to_value st key_desc).2
  match engHas local_object (desc_to_value st key_desc).1 with
  | .thrown tc => try_catch_err st1 tc
  | .ok b => (try_catch_ok_val (.vBoolean b), st1)

/-- The enumerable keys of an object as the engine exposes them at the
bridge's boundary: `ownKeys` is `GetOwnPropertyNames` (own enumerable keys,
in the engine's creation order), `inheritedKeys` the additional enumerable
keys found on the prototype chain. -/
structure ObjShape where
  ownKeys : List String
  inheritedKeys : List String
  deriving DecidableEq, Repr

/-- `v8::Object::GetOwnPropertyNames(context)` at the boundary. -/
def getOwnPropertyNames (o : ObjShape) : List String :=
  o.ownKeys

/-- `v8::Object::GetPropertyNames(context)` at the boundary: own enumerable
keys followed by inherited enumerable keys. -/
def getPropertyNames (o : ObjShape) : List String :=
  o.ownKeys ++ o.inheritedKeys

/-- Result of `mv8_object_keys`: the outcome, the handle state, and the
elements of the engine array the returned handle refers to. -/
structure KeysResult where
  out : TryCatchDesc
  st : HandleState
  contents : List String
  deriving DecidableEq, Repr

/-- `mv8_object_keys`: chooses `GetPropertyNames` when `include_inherited`
is nonzero, `GetOwnPropertyNames` otherwise; on success wraps a freshly
created strong handle to the keys array (referent `arrRef`) in an
`Array`-tagged success outcome.  `enumFail` is the engine's throwing path. -/
def mv8_object_keys (st : HandleState) (o : ObjShape) (include_inherited : Nat)
    (arrRef : Nat) (enumFail : Option TryCatchInfo) : KeysResult :=
  match enumFail with
  | some tc =>
      ⟨(try_catch_err st tc).1, (try_catch_err st tc).2, []⟩
  | none =>
      let keys :=
        if include_inherited != 0 then getPropertyNames o else getOwnPropertyNames o
      ⟨try_catch_ok_val (.vRef .arr st.next), st.alloc (.arr arrRef), keys⟩

/-- `mv8_array_get`. -/
def mv8_array_get (st : HandleState) (array : Nat) (index : Nat)
    (engGet : JSValue → Nat → EngineRes JSValue) : TryCatchDesc × HandleState :=
  let local_object := (st.lookup array).getD JSValue.undefined
  match engGet local_object index with
  | .thrown tc => try_catch_err st tc
  | .ok v => try_catch_ok st v

/-- `mv8_array_set`: decodes the value descriptor before the engine call. -/
def mv8_array_set (st : HandleState) (array : Nat) (index : Nat)
    (value_desc : ValueDesc)
    (engSet : JSValue → Nat → JSValue → EngineRes Unit) : TryCatchDesc × HandleState :=
  let local_object := (st.lookup array).getD JSValue.undefined
  let st1 := (desc_to_value st value_desc).2
  match engSet local_object index (desc_to_value st value_desc).1 with
  | .thrown tc => try_catch_err st1 tc
  | .ok _ => (try_catch_ok_noval, st1)

/-- `mv8_coerce_boolean`: decodes the descriptor (releasing its handle) and
returns the engine's total `BooleanValue` as a raw byte — there is no
try-catch scope and no `TryCatchDesc` in its type. -/
def mv8_coerce_boolean (st : HandleState) (desc : ValueDesc)
    (boolValue : JSValue → Bool) : Nat × HandleState :=
  ((if boolValue (desc_to_value st desc).1 then 1 else 0), (desc_to_value st desc).2)

/-- `mv8_coerce_number`: decodes, then `ToNumber`, which may throw. -/
def mv8_coerce_number (st : HandleState) (desc : ValueDesc)
    (engToNumber : JSValue → EngineRes Rat) : TryCatchDesc × HandleState :=
  let st1 := (desc_to_value st desc).2
  match engToNumber (desc_to_value st desc).1 with
  | .thrown tc => try_catch_err st1 tc
  | .ok x => (try_catch_ok_val (.vNumber x), st1)

/-- `mv8_coerce_string`: decodes, then `ToString`, which may throw; on
success a fresh strong handle to the resulting string is wrapped in a
`String`-tagged success outcome. -/
def mv8_coerce_string (st : HandleState) (desc : ValueDesc)
    (engToString : JSValue → EngineRes JSValue) : TryCatchDesc × HandleState :=
  let st1 := (desc_to_value st desc).2
  match engToString (desc_to_value st desc).1 with
  | .thrown tc => try_catch_err st1 tc
  | .ok s => (try_catch_ok_val (.vRef .str st1.next), st1.alloc s)

/-- `mv8_function_call`: decodes `this`, then every argument in order, all
before the engine call; an empty call result means the try-catch caught. -/
def mv8_function_call (st : HandleState) (func_value : Nat) (this_desc : ValueDesc)
    (arg_descs : List ValueDesc)
    (engCall : JSValue → JSValue → List JSValue → EngineRes JSValue) :
    TryCatchDesc × HandleState :=
  let func := (st.lookup func_value).getD JSValue.undefined
  let st1 := (desc_to_value st this_desc).2
  let st2 := (decodeArgs st1 arg_descs).2
  match engCall func (desc_to_value st this_desc).1 (decodeArgs st1 arg_descs).1 with
  | .thrown tc => try_catch_err st2 tc
  | .ok v => try_catch_ok st2 v

/-- `mv8_function_call_new`: decodes every argument, then `NewInstance`; on
success a fresh strong handle to the constructed object (referent returned
by the engine) is wrapped in an `Object`-tagged success outcome. -/
def mv8_function_call_new (st : HandleState) (func_value : Nat)
    (arg_descs : List ValueDesc)
    (engNew : JSValue → List JSValue → EngineRes Nat) : TryCatchDesc × HandleState :=
  let func := (st.lookup func_value).getD JSValue.undefined
  let st2 := (decodeArgs st arg_descs).2
  match engNew func (decodeArgs st arg_descs).1 with
  | .thrown tc => try_catch_err st2 tc
  | .ok r => (try_catch_ok_val (.vRef .obj st2.next), st2.alloc (.obj r))

/-- What `rust_callback` hands to the process-wide dispatcher
(`main_callback_wrapper_func`): the closure pointer, the encoded `this`, and
the encoded positional arguments. -/
structure DispatchLog where
  func : Nat
  this_desc : ValueDesc
  arg_descs : List ValueDesc
  deriving DecidableEq, Repr

/-- The observable effect of the trampoline on the script-side call: either a
return value or a thrown exception (`args.GetReturnValue().Set` vs
`ThrowException`). -/
inductive CallOutcome where
  | ret (v : JSValue)
  | thrown (v : JSValue)
  deriving DecidableEq, Repr

/-- `rust_callback` (the native-callback trampoline): encodes `this`, then
every positional argument in call order, delegates to the single
process-wide dispatcher (`main_callback_wrapper_func`, modelled as the
`wrapper` parameter — the trampoline never calls the closure directly),
decodes the outcome's descriptor back to an engine value, and throws it when
`is_exception != 0`, returning it otherwise.  The `DispatchLog` component
records exactly what was passed to the dispatcher. -/
def rust_callback (st : HandleState) (func : Nat) (thisVal : JSValue)
    (argVals : List JSValue)
    (wrapper : Nat → ValueDesc → List ValueDesc → TryCatchDesc) :
    CallOutcome × HandleState × DispatchLog :=
  let this_desc := (value_to_desc st thisVal).1
  let st1 := (value_to_desc st thisVal).2
  let arg_descs := (encodeArgs st1 argVals).1
  let st2 := (encodeArgs st1 argVals).2
  let result := wrapper func this_desc arg_descs
  (if result.is_exception != 0 then .thrown (desc_to_value st2 result.value_desc).1
   else .ret (desc_to_value st2 result.value_desc).1,
   (desc_to_value st2 result.value_desc).2, ⟨func, this_desc, arg_descs⟩)

/-- `constexpr uint16_t RUST_CALLBACK_CLASS_ID = 1001`. -/
def RUST_CALLBACK_CLASS_ID : Nat := 1001

/-- A `RustCallback` registration record: the closure pointer, its serialized
size, the model identity of the record (also identifying its weak
`value_ptr` handle), and the wrapper class id set on that weak handle. -/
structure RustCallbackRec where
  func : Nat
  func_size : Nat
  id : Nat
  classId : Nat
  deriving DecidableEq, Repr

/-- The native-callback state of one isolate: the record-id allocator, the
records whose weak `value_ptr` handle is still installed, the finalization
log (record ids, and closure pointers passed to the drop dispatcher), and
the isolate's external-memory accounting. -/
structure CbState where
  nextId : Nat
  live : List RustCallbackRec
  droppedIds : List Nat
  droppedFuncs : List Nat
  extMem : Int
  deriving DecidableEq, Repr

/-- The isolate's initial native-callback state. -/
def initCbState : CbState :=
  ⟨0, [], [], [], 0⟩

/-- `mv8_function_create`: allocates a `RustCallback` record, creates the
weak second handle to the function object tagged with
`RUST_CALLBACK_CLASS_ID` and the collection callback, and charges
external-memory accounting by `sizeof(RustCallback) + func_size` (`szRC` is
the platform's `sizeof(RustCallback)`).  Returns the record (the strong
`func_value` handle is returned to the host and is not tracked here). -/
def mv8_function_create (szRC : Nat) (st : CbState) (func func_size : Nat) :
    RustCallbackRec × CbState :=
  let cb : RustCallbackRec := ⟨func, func_size, st.nextId, RUST_CALLBACK_CLASS_ID⟩
  (cb,
   { st with
       nextId := st.nextId + 1
       live := st.live ++ [cb]
       extMem := st.extMem + (szRC + func_size : Nat) })

/-- `callback_drop_inner`: clears the weak reference, invokes the drop
dispatcher with the closure pointer, releases and deletes the weak handle
(so neither the collector nor the sweep can reach this record again), frees
the record, and debits external memory by the amount charged at
registration. -/
def callback_drop_inner (szRC : Nat) (st : CbState) (cb : RustCallbackRec) : CbState :=
  { st with
      live := st.live.eraseP (fun r => r.id == cb.id)
      droppedIds := st.droppedIds ++ [cb.id]
      droppedFuncs := st.droppedFuncs ++ [cb.func]
      extMem := st.extMem - (szRC + cb.func_size : Nat) }

/-- `callback_drop` (the weak-collection callback): fired by the engine's
collector for a still-installed weak handle; a handle already finalized no
longer exists, so the engine cannot fire it (the `none` branch is
unreachable in a real run and is a no-op). -/
def callback_drop (szRC : Nat) (st : CbState) (id : Nat) : CbState :=
  match st.live.find? (fun r => r.id == id) with
  | some cb => callback_drop_inner szRC st cb
  | none => st

/-- A sequence of collector firings. -/
def collectMany (szRC : Nat) (st : CbState) (sched : List Nat) : CbState :=
  sched.foldl (callback_drop szRC) st

/-- `PersistentHandleCleaner::VisitPersistentHandle`: skips handles whose
class id is not `RUST_CALLBACK_CLASS_ID`, otherwise recovers the record from
the function object's private slot and finalizes it. -/
def visitPersistentHandle (szRC : Nat) (st : CbState) (cb : RustCallbackRec) : CbState :=
  if cb.classId != RUST_CALLBACK_CLASS_ID then st
  else callback_drop_inner szRC st cb

/-- `mv8_interface_drop` (teardown sweep portion): visits every still-live
persistent handle carrying a class id and finalizes the tagged ones, before
the isolate is disposed. -/
def mv8_interface_drop (szRC : Nat) (st : CbState) : CbState :=
  st.live.foldl (visitPersistentHandle szRC) st

/-- Registers a list of closures (pointer, serialized size) in order. -/
def registerAll (szRC : Nat) (st : CbState) (regs : List (Nat × Nat)) : CbState :=
  regs.foldl (fun s r => (mv8_function_create szRC s r.1 r.2).2) st

/-- The records `registerAll` appends when the id allocator starts at `n`. -/
def newRecs (n : Nat) : List (Nat × Nat) → List RustCallbackRec
  | [] => []
  | (f, s) :: rest => ⟨f, s, n, RUST_CALLBACK_CLASS_ID⟩ :: newRecs (n + 1) rest

/-- The classification C4 ascribes to `encode`, phrased from the spec:
undefined → `Undefined`; null → `Null`; booleans → `Boolean`; any numeric
value (including engine-native 32-bit integers) → `Number` with the same
numeric payload widened to double; dates → `Date` with epoch milliseconds;
strings/arrays/functions/plain objects → the corresponding reference variant
carrying a freshly created strong handle to that exact value; anything else
→ `Undefined`.  No case is an error. -/
def EncodeSpec (st : HandleState) (v : JSValue) (out : ValueDesc × HandleState) : Prop :=
  match v with
  | .undefined => out = (.vUndefined, st)
  | .null => out = (.vNull, st)
  | .boolean b => out = (.vBoolean b, st)
  | .number x => out = (.vNumber x, st)
  | .date ms => out = (.vDate ms, st)
  | .str _ =>
      out.1 = .vRef .str st.next ∧ st.hasHandle st.next = false ∧
      out.2.table = (st.next, v) :: st.table ∧ out.2.lookup st.next = some v
  | .arr _ =>
      out.1 = .vRef .arr st.next ∧ st.hasHandle st.next = false ∧
      out.2.table = (st.next, v) :: st.table ∧ out.2.lookup st.next = some v
  | .fn _ =>
      out.1 = .vRef .fn st.next ∧ st.hasHandle st.next = false ∧
      out.2.table = (st.next, v) :: st.table ∧ out.2.lookup st.next = some v
  | .obj _ =>
      out.1 = .vRef .obj st.next ∧ st.hasHandle st.next = false ∧
      out.2.table = (st.next, v) :: st.table ∧ out.2.lookup st.next = some v
  | .errorObject _ =>
      out.1 = .vRef .obj st.next ∧ st.hasHandle st.next = false ∧
      out.2.table = (st.next, v) :: st.table ∧ out.2.lookup st.next = some v
  | .other _ => out = (.vUndefined, st)

/-! ### Helper lemmas -/

/-- An exact 32-bit integer cast back from `Int32Value` is the same number. -/
theorem intCast_num_of_isInt32 (x : Rat) (h : isInt32 x = true) : (x.num : Rat) = x := by
  have hden : x.den = 1 := by
    simp only [isInt32, Bool.and_eq_true, beq_iff_eq] at h
    exact h.1
  have hx := Rat.num_div_den x
  rw [hden] at hx
  simpa using hx

/-- The allocator's next id is never a live handle in a well-formed state. -/
theorem hasHandle_next_false (st : HandleState) (hwf : WF st) :
    st.hasHandle st.next = false := by
  rw [HandleState.hasHandle, List.any_eq_false]
  intro p hp
  have := hwf.2 p hp
  simp only [beq_iff_eq]
  omega

/-- Decoding the descriptor produced by encoding a classifiable value returns
exactly that value and restores the handle table (the fresh handle the
encoding created is freed again). -/
theorem decode_encode (st : HandleState) (v : JSValue) (hv : classifiable v = true) :
    (desc_to_value (value_to_desc st v).2 (value_to_desc st v).1).1 = v ∧
    (desc_to_value (value_to_desc st v).2 (value_to_desc st v).1).2.table = st.table := by
  cases v with
  | undefined => exact ⟨rfl, rfl⟩
  | null => exact ⟨rfl, rfl⟩
  | boolean b => cases b <;> exact ⟨rfl, rfl⟩
  | number x =>
      by_cases h : isInt32 x = true
      · refine ⟨?_, ?_⟩ <;>
          simp [value_to_desc, desc_to_value, h, intCast_num_of_isInt32 x h]
      · refine ⟨?_, ?_⟩ <;> simp [value_to_desc, desc_to_value, h]
  | date ms => exact ⟨rfl, rfl⟩
  | str r =>
      refine ⟨?_, ?_⟩ <;>
        simp [value_to_desc, desc_to_value, HandleState.alloc, HandleState.lookup,
          HandleState.release, List.find?_cons_of_pos, List.eraseP_cons_of_pos]
  | arr r =>
      refine ⟨?_, ?_⟩ <;>
        simp [value_to_desc, desc_to_value, HandleState.alloc, HandleState.lookup,
          HandleState.release, List.find?_cons_of_pos, List.eraseP_cons_of_pos]
  | fn r =>
      refine ⟨?_, ?_⟩ <;>
        simp [value_to_desc, desc_to_value, HandleState.alloc, HandleState.lookup,
          HandleState.release, List.find?_cons_of_pos, List.eraseP_cons_of_pos]
  | obj r =>
      refine ⟨?_, ?_⟩ <;>
        simp [value_to_desc, desc_to_value, HandleState.alloc, HandleState.lookup,
          HandleState.release, List.find?_cons_of_pos, List.eraseP_cons_of_pos]
  | errorObject msg =>
      refine ⟨?_, ?_⟩ <;>
        simp [value_to_desc, desc_to_value, HandleState.alloc, HandleState.lookup,
          HandleState.release, List.find?_cons_of_pos, List.eraseP_cons_of_pos]
  | other r => simp [classifiable] at hv

/-! ### Claim theorems -/

/-- C3: for every engine value reachable through the public operations
(`classifiable`: the values the `IsXxx` chain classifies), decoding the TVD
produced by encoding the value yields a value observably equal to it — the
same constructor and primitive payload for Null/Undefined/Boolean/Number/
Date, and the identical referent for the reference-carrying variants — and
the handle created by the encoding is released again. -/
theorem C3_roundtrip (st : HandleState) (v : JSValue) (hv : classifiable v = true) :
    (desc_to_value (value_to_desc st v).2 (value_to_desc st v).1).1 = v ∧
    (desc_to_value (value_to_desc st v).2 (value_to_desc st v).1).2.table = st.table :=
  decode_encode st v hv

theorem C3_roundtrip_witness :
    classifiable (JSValue.str 7) = true ∧
    (desc_to_value (value_to_desc ⟨0, [], 0, 0⟩ (JSValue.str 7)).2
        (value_to_desc ⟨0, [], 0, 0⟩ (JSValue.str 7)).1).1 = JSValue.str 7 :=
  ⟨by decide, (C3_roundtrip ⟨0, [], 0, 0⟩ (JSValue.str 7) (by decide)).1⟩

/-- C4: `value_to_desc` is total — it is a plain function with no error or
exception path — and classifies every engine value exactly as the spec
states (`EncodeSpec`): undefined/null/boolean/number/date map to the
corresponding primitive descriptor (int32s widened to the same numeric
payload), strings/arrays/functions/plain objects map to their reference
variant carrying a freshly created strong handle to that exact value, and
every other value degrades to `Undefined`. -/
theorem C4_encode_total (st : HandleState) (v : JSValue) (hwf : WF st) :
    EncodeSpec st v (value_to_desc st v) := by
  have hfresh := hasHandle_next_false st hwf
  cases v with
  | number x =>
      by_cases h : isInt32 x = true
      · simp [EncodeSpec, value_to_desc, h, intCast_num_of_isInt32 x h]
      · simp [EncodeSpec, value_to_desc, h]
  | boolean b => cases b <;> simp [EncodeSpec, value_to_desc]
  | str r =>
      refine ⟨rfl, hfresh, rfl, ?_⟩
      simp [value_to_desc, HandleState.alloc, HandleState.lookup, List.find?_cons_of_pos]
  | arr r =>
      refine ⟨rfl, hfresh, rfl, ?_⟩
      simp [value_to_desc, HandleState.alloc, HandleState.lookup, List.find?_cons_of_pos]
  | fn r =>
      refine ⟨rfl, hfresh, rfl, ?_⟩
      simp [value_to_desc, HandleState.alloc, HandleState.lookup, List.find?_cons_of_pos]
  | obj r =>
      refine ⟨rfl, hfresh, rfl, ?_⟩
      simp [value_to_desc, HandleState.alloc, HandleState.lookup, List.find?_cons_of_pos]
  | errorObject msg =>
      refine ⟨rfl, hfresh, rfl, ?_⟩
      simp [value_to_desc, HandleState.alloc, HandleState.lookup, List.find?_cons_of_pos]
  | _ => simp [EncodeSpec, value_to_desc]

theorem C4_encode_total_witness :
    WF ⟨1, [(0, JSValue.null)], 1, 0⟩ ∧
    EncodeSpec ⟨1, [(0, JSValue.null)], 1, 0⟩ (JSValue.str 3)
      (value_to_desc ⟨1, [(0, JSValue.null)], 1, 0⟩ (JSValue.str 3)) :=
  ⟨⟨by simp, by simp⟩,
   C4_encode_total ⟨1, [(0, JSValue.null)], 1, 0⟩ (JSValue.str 3) ⟨by simp, by simp⟩⟩

/-- C5: a captured exception outcome always has `is_exception = 1`; when
execution was not forcibly terminated, the captured TVD is the thrown value
itself, unchanged and unwrapped (decoding it returns exactly the thrown
value, and `throw 42` captures `Number 42`, not an Error object); when
execution was terminated, the TVD is instead an Object-variant handle to a
synthesized Error carrying the fixed sentinel message. -/
theorem C5_exception_capture (st : HandleState) (tc : TryCatchInfo) :
    (try_catch_err st tc).1.is_exception = 1 ∧
    (tc.hasTerminated = false → classifiable tc.exception = true →
      (desc_to_value (try_catch_err st tc).2 (try_catch_err st tc).1.value_desc).1
        = tc.exception) ∧
    (tc.hasTerminated = false → tc.exception = JSValue.number 42 →
      (try_catch_err st tc).1.value_desc = ValueDesc.vNumber 42) ∧
    (tc.hasTerminated = true →
      (try_catch_err st tc).1.value_desc = ValueDesc.vRef .obj st.next ∧
      (desc_to_value (try_catch_err st tc).2 (try_catch_err st tc).1.value_desc).1
        = JSValue.errorObject EXECUTION_TIMEOUT_MESSAGE) := by
  refine ⟨rfl, ?_, ?_, ?_⟩
  · intro hterm hcl
    have h := (decode_encode st tc.exception hcl).1
    simpa [try_catch_err, hterm] using h
  · intro hterm hexc
    simp [try_catch_err, hterm, hexc, value_to_desc, isInt32]
  · intro hterm
    have h := (decode_encode st (JSValue.errorObject EXECUTION_TIMEOUT_MESSAGE) rfl).1
    constructor
    · simp [try_catch_err, hterm, value_to_desc]
    · simpa [try_catch_err, hterm] using h

theorem C5_exception_capture_witness :
    ((try_catch_err ⟨0, [], 0, 0⟩ ⟨JSValue.number 42, false⟩).1.is_exception = 1 ∧
      (try_catch_err ⟨0, [], 0, 0⟩ ⟨JSValue.number 42, false⟩).1.value_desc
        = ValueDesc.vNumber 42) ∧
    (try_catch_err ⟨0, [], 0, 0⟩ ⟨JSValue.null, true⟩).1.value_desc
      = ValueDesc.vRef .obj 0 :=
  ⟨⟨(C5_exception_capture ⟨0, [], 0, 0⟩ ⟨JSValue.number 42, false⟩).1,
    (C5_exception_capture ⟨0, [], 0, 0⟩ ⟨JSValue.number 42, false⟩).2.2.1 rfl rfl⟩,
   ((C5_exception_capture ⟨0, [], 0, 0⟩ ⟨JSValue.null, true⟩).2.2.2 rfl).1⟩

/-! ### Handle-release bookkeeping lemmas (for C2) -/

/-- Decoding bumps the release counter by exactly the number of handles the
descriptor owns (one for a reference variant, zero otherwise). -/
theorem desc_released (st : HandleState) (d : ValueDesc) :
    (desc_to_value st d).2.released = st.released + d.refHandles.length := by
  cases d <;> simp [desc_to_value, ValueDesc.refHandles, HandleState.release]

theorem desc_next (st : HandleState) (d : ValueDesc) :
    (desc_to_value st d).2.next = st.next := by
  cases d <;> rfl

theorem desc_table_sublist (st : HandleState) (d : ValueDesc) :
    (desc_to_value st d).2.table.Sublist st.table := by
  cases d
  case vRef t h => exact List.eraseP_sublist _
  all_goals exact List.Sublist.refl _

/-- A table sublist with the same allocator bound preserves well-formedness. -/
theorem WF_sub {st1 st2 : HandleState} (hsub : st2.table.Sublist st1.table)
    (hnext : st2.next = st1.next) (hwf : WF st1) : WF st2 := by
  refine ⟨List.Nodup.sublist (hsub.map Prod.fst) hwf.1, ?_⟩
  intro p hp
  rw [hnext]
  exact hwf.2 p (hsub.subset hp)

theorem lt_next_of_hasHandle (st : HandleState) (h : Nat) (hwf : WF st)
    (hh : st.hasHandle h = true) : h < st.next := by
  rw [HandleState.hasHandle, List.any_eq_true] at hh
  obtain ⟨p, hp, hph⟩ := hh
  have := hwf.2 p hp
  simp only [beq_iff_eq] at hph
  omega

theorem hasHandle_false_of_sublist {st1 st2 : HandleState}
    (hsub : st2.table.Sublist st1.table) {h : Nat}
    (hh : st1.hasHandle h = false) : st2.hasHandle h = false := by
  rw [HandleState.hasHandle, List.any_eq_false] at *
  intro p hp
  exact hh p (hsub.subset hp)

/-- Erasing the unique binding of a handle id leaves no binding of that id. -/
theorem any_eraseP_self_false (l : List (Nat × JSValue)) (h : Nat)
    (hnd : (l.map Prod.fst).Nodup) :
    ((l.eraseP fun p => p.1 == h).any fun p => p.1 == h) = false := by
  induction l with
  | nil => rfl
  | cons a tl ih =>
      rw [List.map_cons, List.nodup_cons] at hnd
      by_cases ha : a.1 = h
      · rw [List.eraseP_cons_of_pos (by simpa using ha)]
        rw [List.any_eq_false]
        intro p hp
        simp only [beq_iff_eq]
        intro hph
        have hmem : p.1 ∈ tl.map Prod.fst := List.mem_map_of_mem Prod.fst hp
        rw [hph, ← ha] at hmem
        exact hnd.1 hmem
      · rw [List.eraseP_cons_of_neg (by simpa using ha), List.any_cons,
          Bool.or_eq_false_iff]
        exact ⟨by simpa using ha, ih hnd.2⟩

theorem release_self_false (st : HandleState) (h : Nat)
    (hnd : (st.table.map Prod.fst).Nodup) :
    (st.release h).hasHandle h = false :=
  any_eraseP_self_false st.table h hnd

/-- Decoding a descriptor removes the very handle it owns from the table. -/
theorem desc_kills_own (st : HandleState) (d : ValueDesc) (hwf : WF st) :
    ∀ h ∈ d.refHandles, (desc_to_value st d).2.hasHandle h = false := by
  intro h hmem
  cases d with
  | vRef t h2 =>
      rw [ValueDesc.refHandles, List.mem_singleton] at hmem
      subst hmem
      exact release_self_false st h hwf.1
  | vNull => simp [ValueDesc.refHandles] at hmem
  | vUndefined => simp [ValueDesc.refHandles] at hmem
  | vNumber x => simp [ValueDesc.refHandles] at hmem
  | vBoolean b => simp [ValueDesc.refHandles] at hmem
  | vDate ms => simp [ValueDesc.refHandles] at hmem

/-- Encoding either leaves the state alone or allocates one fresh handle. -/
theorem enc_state_cases (st : HandleState) (v : JSValue) :
    (value_to_desc st v).2 = st ∨ (value_to_desc st v).2 = st.alloc v := by
  cases v with
  | boolean b => cases b <;> exact Or.inl rfl
  | number x => by_cases h : isInt32 x = true <;> simp [value_to_desc, h]
  | str r => exact Or.inr rfl
  | arr r => exact Or.inr rfl
  | fn r => exact Or.inr rfl
  | obj r => exact Or.inr rfl
  | errorObject m => exact Or.inr rfl
  | _ => exact Or.inl rfl

theorem alloc_hasHandle_false (st : HandleState) (v : JSValue) (h : Nat)
    (hlt : h < st.next) (hh : st.hasHandle h = false) :
    (st.alloc v).hasHandle h = false := by
  show ((st.next, v) :: st.table).any (fun p => p.1 == h) = false
  rw [List.any_cons, Bool.or_eq_false_iff]
  refine ⟨by simp; omega, hh⟩

theorem enc_released (st : HandleState) (v : JSValue) :
    (value_to_desc st v).2.released = st.released := by
  rcases enc_state_cases st v with heq | heq <;> simp [heq, HandleState.alloc]

theorem enc_hasHandle_false (st : HandleState) (v : JSValue) (h : Nat)
    (hlt : h < st.next) (hh : st.hasHandle h = false) :
    (value_to_desc st v).2.hasHandle h = false := by
  rcases enc_state_cases st v with heq | heq <;> rw [heq]
  · exact hh
  · exact alloc_hasHandle_false st v h hlt hh

theorem tce_released (st : HandleState) (tc : TryCatchInfo) :
    (try_catch_err st tc).2.released = st.released :=
  enc_released st _

theorem tce_keep (st : HandleState) (tc : TryCatchInfo) (h : Nat)
    (hlt : h < st.next) (hh : st.hasHandle h = false) :
    (try_catch_err st tc).2.hasHandle h = false :=
  enc_hasHandle_false st _ h hlt hh

theorem tco_released (st : HandleState) (v : JSValue) :
    (try_catch_ok st v).2.released = st.released :=
  enc_released st _

theorem tco_keep (st : HandleState) (v : JSValue) (h : Nat)
    (hlt : h < st.next) (hh : st.hasHandle h = false) :
    (try_catch_ok st v).2.hasHandle h = false :=
  enc_hasHandle_false st _ h hlt hh

theorem decodeArgs_released : ∀ (ds : List ValueDesc) (st : HandleState),
    (decodeArgs st ds).2.released = st.released + (refHandlesOf ds).length := by
  intro ds
  induction ds with
  | nil => intro st; simp [decodeArgs, refHandlesOf]
  | cons d rest ih =>
      intro st
      simp only [decodeArgs, refHandlesOf, List.length_append]
      rw [ih, desc_released]
      omega

theorem decodeArgs_next : ∀ (ds : List ValueDesc) (st : HandleState),
    (decodeArgs st ds).2.next = st.next := by
  intro ds
  induction ds with
  | nil => intro st; rfl
  | cons d rest ih =>
      intro st
      simp only [decodeArgs]
      rw [ih, desc_next]

theorem decodeArgs_sublist : ∀ (ds : List ValueDesc) (st : HandleState),
    (decodeArgs st ds).2.table.Sublist st.table := by
  intro ds
  induction ds with
  | nil => intro st; exact List.Sublist.refl _
  | cons d rest ih =>
      intro st
      simp only [decodeArgs]
      exact (ih (desc_to_value st d).2).trans (desc_table_sublist st d)

theorem WF_decodeArgs (ds : List ValueDesc) (st : HandleState) (hwf : WF st) :
    WF (decodeArgs st ds).2 :=
  WF_sub (decodeArgs_sublist ds st) (decodeArgs_next ds st) hwf

/-- After decoding a list of descriptors, none of the handles they owned is
still live. -/
theorem decodeArgs_kills : ∀ (ds : List ValueDesc) (st : HandleState), WF st →
    ∀ h ∈ refHandlesOf ds, (decodeArgs st ds).2.hasHandle h = false := by
  intro ds
  induction ds with
  | nil => intro st _ h hmem; simp [refHandlesOf] at hmem
  | cons d rest ih =>
      intro st hwf h hmem
      rw [refHandlesOf, List.mem_append] at hmem
      have hwf1 : WF (desc_to_value st d).2 :=
        WF_sub (desc_table_sublist st d) (desc_next st d) hwf
      rcases hmem with hmem | hmem
      · have h0 := desc_kills_own st d hwf h hmem
        have h1 := hasHandle_false_of_sublist
          (decodeArgs_sublist rest (desc_to_value st d).2) h0
        simpa [decodeArgs] using h1
      · have h1 := ih (desc_to_value st d).2 hwf1 h hmem
        simpa [decodeArgs] using h1

/-- Generic shape of every consuming operation: decode all descriptor inputs,
then run a release-neutral continuation (returning, capturing an exception,
or allocating a fresh output handle).  The release counter advances by
exactly the number of reference-variant inputs and every previously live
input handle is gone, whatever the continuation. -/
theorem op_release_spec {α : Type} (st : HandleState) (hwf : WF st)
    (ds : List ValueDesc) (k : HandleState → α × HandleState)
    (hk_rel : ∀ s, (k s).2.released = s.released)
    (hk_keep : ∀ s (h : Nat), h < s.next → s.hasHandle h = false →
      (k s).2.hasHandle h = false) :
    (k (decodeArgs st ds).2).2.released = st.released + (refHandlesOf ds).length ∧
    (∀ h ∈ refHandlesOf ds, st.hasHandle h = true →
      (k (decodeArgs st ds).2).2.hasHandle h = false) := by
  constructor
  · rw [hk_rel, decodeArgs_released]
  · intro h hmem hlive
    have hlt : h < st.next := lt_next_of_hasHandle st h hwf hlive
    have hlt2 : h < (decodeArgs st ds).2.next := by rw [decodeArgs_next]; exact hlt
    exact hk_keep _ h hlt2 (decodeArgs_kills ds st hwf h hmem)

theorem object_get_release (st : HandleState) (hwf : WF st) (object : Nat)
    (key_desc : ValueDesc) (engGet : JSValue → JSValue → EngineRes JSValue) :
    (mv8_object_get st object key_desc engGet).2.released
        = st.released + (refHandlesOf [key_desc]).length ∧
    (∀ h ∈ refHandlesOf [key_desc], st.hasHandle h = true →
      (mv8_object_get st object key_desc engGet).2.hasHandle h = false) := by
  cases hE : engGet ((st.lookup object).getD JSValue.undefined)
      (desc_to_value st key_desc).1 with
  | thrown tc =>
      have h := op_release_spec st hwf [key_desc] (fun s => try_catch_err s tc)
        (fun s => tce_released s tc) (fun s h2 hlt hh => tce_keep s tc h2 hlt hh)
      constructor
      · have h1 := h.1
        simp only [decodeArgs] at h1
        simpa [mv8_object_get, hE] using h1
      · intro h2 hmem hlive
        have h1 := h.2 h2 hmem hlive
        simp only [decodeArgs] at h1
        simpa [mv8_object_get, hE] using h1
  | ok v =>
      have h := op_release_spec st hwf [key_desc] (fun s => try_catch_ok s v)
        (fun s => tco_released s v) (fun s h2 hlt hh => tco_keep s v h2 hlt hh)
      constructor
      · have h1 := h.1
        simp only [decodeArgs] at h1
        simpa [mv8_object_get, hE] using h1
      · intro h2 hmem hlive
        have h1 := h.2 h2 hmem hlive
        simp only [decodeArgs] at h1
        simpa [mv8_object_get, hE] using h1

theorem object_set_release (st : HandleState) (hwf : WF st) (object : Nat)
    (key_desc value_desc : ValueDesc)
    (engSet : JSValue → JSValue → JSValue → EngineRes Unit) :
    (mv8_object_set st object key_desc value_desc engSet).2.released
        = st.released + (refHandlesOf [key_desc, value_desc]).length ∧
    (∀ h ∈ refHandlesOf [key_desc, value_desc], st.hasHandle h = true →
      (mv8_object_set st object key_desc value_desc engSet).2.hasHandle h = false) := by
  cases hE : engSet ((st.lookup object).getD JSValue.undefined)
      (desc_to_value st key_desc).1
      (desc_to_value (desc_to_value st key_desc).2 value_desc).1 with
  | thrown tc =>
      have h := op_release_spec st hwf [key_desc, value_desc]
        (fun s => try_catch_err s tc)
        (fun s => tce_released s tc) (fun s h2 hlt hh => tce_keep s tc h2 hlt hh)
      constructor
      · have h1 := h.1
        simp only [decodeArgs] at h1
        simpa [mv8_object_set, hE] using h1
      · intro h2 hmem hlive
        have h1 := h.2 h2 hmem hlive
        simp only [decodeArgs] at h1
        simpa [mv8_object_set, hE] using h1
  | ok u =>
      have h := op_release_spec st hwf [key_desc, value_desc]
        (fun s => (try_catch_ok_noval, s))
        (fun s => rfl) (fun s h2 hlt hh => hh)
      constructor
      · have h1 := h.1
        simp only [decodeArgs] at h1
        simpa [mv8_object_set, hE] using h1
      · intro h2 hmem hlive
        have h1 := h.2 h2 hmem hlive
        simp only [decodeArgs] at h1
        simpa [mv8_object_set, hE] using h1

theorem object_remove_release (st : HandleState) (hwf : WF st) (object : Nat)
    (key_desc : ValueDesc) (engDelete : JSValue → JSValue → EngineRes Unit) :
    (mv8_object_remove st object key_desc engDelete).2.released
        = st.released + (refHandlesOf [key_desc]).length ∧
    (∀ h ∈ refHandlesOf [key_desc], st.hasHandle h = true →
      (mv8_object_remove st object key_desc engDelete).2.hasHandle h = false) := by
  cases hE : engDelete ((st.lookup object).getD JSValue.undefined)
      (desc_to_value st key_desc).1 with
  | thrown tc =>
      have h := op_release_spec st hwf [key_desc] (fun s => try_catch_err s tc)
        (fun s => tce_released s tc) (fun s h2 hlt hh => tce_keep s tc h2 hlt hh)
      constructor
      · have h1 := h.1
        simp only [decodeArgs] at h1
        simpa [mv8_object_remove, hE] using h1
      · intro h2 hmem hlive
        have h1 := h.2 h2 hmem hlive
        simp only [decodeArgs] at h1
        simpa [mv8_object_remove, hE] using h1
  | ok u =>
      have h := op_release_spec st hwf [key_desc] (fun s => (try_catch_ok_noval, s))
        (fun s => rfl) (fun s h2 hlt hh => hh)
      constructor
      · have h1 := h.1
        simp only [decodeArgs] at h1
        simpa [mv8_object_remove, hE] using h1
      · intro h2 hmem hlive
        have h1 := h.2 h2 hmem hlive
        simp only [decodeArgs] at h1
        simpa [mv8_object_remove, hE] using h1

theorem object_has_release (st : HandleState) (hwf : WF st) (object : Nat)
    (key_desc : ValueDesc) (engHas : JSValue → JSValue → EngineRes Bool) :
    (mv8_object_has st object key_desc engHas).2.released
        = st.released + (refHandlesOf [key_desc]).length ∧
    (∀ h ∈ refHandlesOf [key_desc], st.hasHandle h = true →
      (mv8_object_has st object key_desc engHas).2.hasHandle h = false) := by
  cases hE : engHas ((st.lookup object).getD JSValue.undefined)
      (desc_to_value st key_desc).1 with
  | thrown tc =>
      have h := op_release_spec st hwf [key_desc] (fun s => try_catch_err s tc)
        (fun s => tce_released s tc) (fun s h2 hlt hh => tce_keep s tc h2 hlt hh)
      constructor
      · have h1 := h.1
        simp only [decodeArgs] at h1
        simpa [mv8_object_has, hE] using h1
      · intro h2 hmem hlive
        have h1 := h.2 h2 hmem hlive
        simp only [decodeArgs] at h1
        simpa [mv8_object_has, hE] using h1
  | ok b =>
      have h := op_release_spec st hwf [key_desc]
        (fun s => (try_catch_ok_val (.vBoolean b), s))
        (fun s => rfl) (fun s h2 hlt hh => hh)
      constructor
      · have h1 := h.1
        simp only [decodeArgs] at h1
        simpa [mv8_object_has, hE] using h1
      · intro h2 hmem hlive
        have h1 := h.2 h2 hmem hlive
        simp only [decodeArgs] at h1
        simpa [mv8_object_has, hE] using h1

theorem array_set_release (st : HandleState) (hwf : WF st) (array index : Nat)
    (value_desc : ValueDesc)
    (engASet : JSValue → Nat → JSValue → EngineRes Unit) :
    (mv8_array_set st array index value_desc engASet).2.released
        = st.released + (refHandlesOf [value_desc]).length ∧
    (∀ h ∈ refHandlesOf [value_desc], st.hasHandle h = true →
      (mv8_array_set st array index value_desc engASet).2.hasHandle h = false) := by
  cases hE : engASet ((st.lookup array).getD JSValue.undefined) index
      (desc_to_value st value_desc).1 with
  | thrown tc =>
      have h := op_release_spec st hwf [value_desc] (fun s => try_catch_err s tc)
        (fun s => tce_released s tc) (fun s h2 hlt hh => tce_keep s tc h2 hlt hh)
      constructor
      · have h1 := h.1
        simp only [decodeArgs] at h1
        simpa [mv8_array_set, hE] using h1
      · intro h2 hmem hlive
        have h1 := h.2 h2 hmem hlive
        simp only [decodeArgs] at h1
        simpa [mv8_array_set, hE] using h1
  | ok u =>
      have h := op_release_spec st hwf [value_desc] (fun s => (try_catch_ok_noval, s))
        (fun s => rfl) (fun s h2 hlt hh => hh)
      constructor
      · have h1 := h.1
        simp only [decodeArgs] at h1
        simpa [mv8_array_set, hE] using h1
      · intro h2 hmem hlive
        have h1 := h.2 h2 hmem hlive
        simp only [decodeArgs] at h1
        simpa [mv8_array_set, hE] using h1

theorem coerce_boolean_release (st : HandleState) (hwf : WF st)
    (desc : ValueDesc) (boolValue : JSValue → Bool) :
    (mv8_coerce_boolean st desc boolValue).2.released
        = st.released + (refHandlesOf [desc]).length ∧
    (∀ h ∈ refHandlesOf [desc], st.hasHandle h = true →
      (mv8_coerce_boolean st desc boolValue).2.hasHandle h = false) := by
  have h := op_release_spec st hwf [desc] (fun s => ((), s))
    (fun s => rfl) (fun s h2 hlt hh => hh)
  constructor
  · have h1 := h.1
    simp only [decodeArgs] at h1
    simpa [mv8_coerce_boolean] using h1
  · intro h2 hmem hlive
    have h1 := h.2 h2 hmem hlive
    simp only [decodeArgs] at h1
    simpa [mv8_coerce_boolean] using h1

theorem coerce_number_release (st : HandleState) (hwf : WF st)
    (desc : ValueDesc) (engToNumber : JSValue → EngineRes Rat) :
    (mv8_coerce_number st desc engToNumber).2.released
        = st.released + (refHandlesOf [desc]).length ∧
    (∀ h ∈ refHandlesOf [desc], st.hasHandle h = true →
      (mv8_coerce_number st desc engToNumber).2.hasHandle h = false) := by
  cases hE : engToNumber (desc_to_value st desc).1 with
  | thrown tc =>
      have h := op_release_spec st hwf [desc] (fun s => try_catch_err s tc)
        (fun s => tce_released s tc) (fun s h2 hlt hh => tce_keep s tc h2 hlt hh)
      constructor
      · have h1 := h.1
        simp only [decodeArgs] at h1
        simpa [mv8_coerce_number, hE] using h1
      · intro h2 hmem hlive
        have h1 := h.2 h2 hmem hlive
        simp only [decodeArgs] at h1
        simpa [mv8_coerce_number, hE] using h1
  | ok x =>
      have h := op_release_spec st hwf [desc]
        (fun s => (try_catch_ok_val (.vNumber x), s))
        (fun s => rfl) (fun s h2 hlt hh => hh)
      constructor
      · have h1 := h.1
        simp only [decodeArgs] at h1
        simpa [mv8_coerce_number, hE] using h1
      · intro h2 hmem hlive
        have h1 := h.2 h2 hmem hlive
        simp only [decodeArgs] at h1
        simpa [mv8_coerce_number, hE] using h1

theorem coerce_string_release (st : HandleState) (hwf : WF st)
    (desc : ValueDesc) (engToString : JSValue → EngineRes JSValue) :
    (mv8_coerce_string st desc engToString).2.released
        = st.released + (refHandlesOf [desc]).length ∧
    (∀ h ∈ refHandlesOf [desc], st.hasHandle h = true →
      (mv8_coerce_string st desc engToString).2.hasHandle h = false) := by
  cases hE : engToString (desc_to_value st desc).1 with
  | thrown tc =>
      have h := op_release_spec st hwf [desc] (fun s => try_catch_err s tc)
        (fun s => tce_released s tc) (fun s h2 hlt hh => tce_keep s tc h2 hlt hh)
      constructor
      · have h1 := h.1
        simp only [decodeArgs] at h1
        simpa [mv8_coerce_string, hE] using h1
      · intro h2 hmem hlive
        have h1 := h.2 h2 hmem hlive
        simp only [decodeArgs] at h1
        simpa [mv8_coerce_string, hE] using h1
  | ok s0 =>
      have h := op_release_spec st hwf [desc]
        (fun s => (try_catch_ok_val (.vRef .str s.next), s.alloc s0))
        (fun s => rfl)
        (fun s h2 hlt hh => alloc_hasHandle_false s s0 h2 hlt hh)
      constructor
      · have h1 := h.1
        simp only [decodeArgs] at h1
        simpa [mv8_coerce_string, hE] using h1
      · intro h2 hmem hlive
        have h1 := h.2 h2 hmem hlive
        simp only [decodeArgs] at h1
        simpa [mv8_coerce_string, hE] using h1

theorem function_call_release (st : HandleState) (hwf : WF st) (func_value : Nat)
    (this_desc : ValueDesc) (arg_descs : List ValueDesc)
    (engCall : JSValue → JSValue → List JSValue → EngineRes JSValue) :
    (mv8_function_call st func_value this_desc arg_descs engCall).2.released
        = st.released + (refHandlesOf (this_desc :: arg_descs)).length ∧
    (∀ h ∈ refHandlesOf (this_desc :: arg_descs), st.hasHandle h = true →
      (mv8_function_call st func_value this_desc arg_descs engCall).2.hasHandle h
        = false) := by
  cases hE : engCall ((st.lookup func_value).getD JSValue.undefined)
      (desc_to_value st this_desc).1
      (decodeArgs (desc_to_value st this_desc).2 arg_descs).1 with
  | thrown tc =>
      have h := op_release_spec st hwf (this_desc :: arg_descs)
        (fun s => try_catch_err s tc)
        (fun s => tce_released s tc) (fun s h2 hlt hh => tce_keep s tc h2 hlt hh)
      constructor
      · have h1 := h.1
        simp only [decodeArgs] at h1
        simpa [mv8_function_call, hE] using h1
      · intro h2 hmem hlive
        have h1 := h.2 h2 hmem hlive
        simp only [decodeArgs] at h1
        simpa [mv8_function_call, hE] using h1
  | ok v =>
      have h := op_release_spec st hwf (this_desc :: arg_descs)
        (fun s => try_catch_ok s v)
        (fun s => tco_released s v) (fun s h2 hlt hh => tco_keep s v h2 hlt hh)
      constructor
      · have h1 := h.1
        simp only [decodeArgs] at h1
        simpa [mv8_function_call, hE] using h1
      · intro h2 hmem hlive
        have h1 := h.2 h2 hmem hlive
        simp only [decodeArgs] at h1
        simpa [mv8_function_call, hE] using h1

theorem function_call_new_release (st : HandleState) (hwf : WF st)
    (func_value : Nat) (arg_descs : List ValueDesc)
    (engNew : JSValue → List JSValue → EngineRes Nat) :
    (mv8_function_call_new st func_value arg_descs engNew).2.released
        = st.released + (refHandlesOf arg_descs).length ∧
    (∀ h ∈ refHandlesOf arg_descs, st.hasHandle h = true →
      (mv8_function_call_new st func_value arg_descs engNew).2.hasHandle h
        = false) := by
  cases hE : engNew ((st.lookup func_value).getD JSValue.undefined)
      (decodeArgs st arg_descs).1 with
  | thrown tc =>
      have h := op_release_spec st hwf arg_descs (fun s => try_catch_err s tc)
        (fun s => tce_released s tc) (fun s h2 hlt hh => tce_keep s tc h2 hlt hh)
      constructor
      · simpa [mv8_function_call_new, hE] using h.1
      · intro h2 hmem hlive
        simpa [mv8_function_call_new, hE] using h.2 h2 hmem hlive
  | ok r =>
      have h := op_release_spec st hwf arg_descs
        (fun s => (try_catch_ok_val (.vRef .obj s.next), s.alloc (.obj r)))
        (fun s => rfl)
        (fun s h2 hlt hh => alloc_hasHandle_false s (.obj r) h2 hlt hh)
      constructor
      · simpa [mv8_function_call_new, hE] using h.1
      · intro h2 hmem hlive
        simpa [mv8_function_call_new, hE] using h.2 h2 hmem hlive

/-- C2: every exported operation that consumes `ValueDesc`s — object
get/set/remove/has, array set, the three coercions, function call and
constructor call — decodes each of its descriptor inputs before any early
exit, so the persistent handle carried by every reference-variant input is
released exactly once on every code path, the exception-`Outcome` paths
included: for any engine behavior (success or throw), the release counter
advances by exactly the number of reference-variant inputs and every input
handle that was live beforehand is no longer live afterwards.  (Array get
consumes no descriptor.) -/
theorem C2_inputs_released (st : HandleState) (hwf : WF st)
    (object array index func_value : Nat)
    (key_desc value_desc this_desc desc : ValueDesc) (arg_descs : List ValueDesc)
    (engGet : JSValue → JSValue → EngineRes JSValue)
    (engSet : JSValue → JSValue → JSValue → EngineRes Unit)
    (engDelete : JSValue → JSValue → EngineRes Unit)
    (engHas : JSValue → JSValue → EngineRes Bool)
    (engASet : JSValue → Nat → JSValue → EngineRes Unit)
    (boolValue : JSValue → Bool)
    (engToNumber : JSValue → EngineRes Rat)
    (engToString : JSValue → EngineRes JSValue)
    (engCall : JSValue → JSValue → List JSValue → EngineRes JSValue)
    (engNew : JSValue → List JSValue → EngineRes Nat) :
    ((mv8_object_get st object key_desc engGet).2.released
        = st.released + (refHandlesOf [key_desc]).length ∧
      (∀ h ∈ refHandlesOf [key_desc], st.hasHandle h = true →
        (mv8_object_get st object key_desc engGet).2.hasHandle h = false)) ∧
    ((mv8_object_set st object key_desc value_desc engSet).2.released
        = st.released + (refHandlesOf [key_desc, value_desc]).length ∧
      (∀ h ∈ refHandlesOf [key_desc, value_desc], st.hasHandle h = true →
        (mv8_object_set st object key_desc value_desc engSet).2.hasHandle h = false)) ∧
    ((mv8_object_remove st object key_desc engDelete).2.released
        = st.released + (refHandlesOf [key_desc]).length ∧
      (∀ h ∈ refHandlesOf [key_desc], st.hasHandle h = true →
        (mv8_object_remove st object key_desc engDelete).2.hasHandle h = false)) ∧
    ((mv8_object_has st object key_desc engHas).2.released
        = st.released + (refHandlesOf [key_desc]).length ∧
      (∀ h ∈ refHandlesOf [key_desc], st.hasHandle h = true →
        (mv8_object_has st object key_desc engHas).2.hasHandle h = false)) ∧
    ((mv8_array_set st array index value_desc engASet).2.released
        = st.released + (refHandlesOf [value_desc]).length ∧
      (∀ h ∈ refHandlesOf [value_desc], st.hasHandle h = true →
        (mv8_array_set st array index value_desc engASet).2.hasHandle h = false)) ∧
    ((mv8_coerce_boolean st desc boolValue).2.released
        = st.released + (refHandlesOf [desc]).length ∧
      (∀ h ∈ refHandlesOf [desc], st.hasHandle h = true →
        (mv8_coerce_boolean st desc boolValue).2.hasHandle h = false)) ∧
    ((mv8_coerce_number st desc engToNumber).2.released
        = st.released + (refHandlesOf [desc]).length ∧
      (∀ h ∈ refHandlesOf [desc], st.hasHandle h = true →
        (mv8_coerce_number st desc engToNumber).2.hasHandle h = false)) ∧
    ((mv8_coerce_string st desc engToString).2.released
        = st.released + (refHandlesOf [desc]).length ∧
      (∀ h ∈ refHandlesOf [desc], st.hasHandle h = true →
        (mv8_coerce_string st desc engToString).2.hasHandle h = false)) ∧
    ((mv8_function_call st func_value this_desc arg_descs engCall).2.released
        = st.released + (refHandlesOf (this_desc :: arg_descs)).length ∧
      (∀ h ∈ refHandlesOf (this_desc :: arg_descs), st.hasHandle h = true →
        (mv8_function_call st func_value this_desc arg_descs engCall).2.hasHandle h
          = false)) ∧
    ((mv8_function_call_new st func_value arg_descs engNew).2.released
        = st.released + (refHandlesOf arg_descs).length ∧
      (∀ h ∈ refHandlesOf arg_descs, st.hasHandle h = true →
        (mv8_function_call_new st func_value arg_descs engNew).2.hasHandle h
          = false)) :=
  ⟨object_get_release st hwf object key_desc engGet,
   object_set_release st hwf object key_desc value_desc engSet,
   object_remove_release st hwf object key_desc engDelete,
   object_has_release st hwf object key_desc engHas,
   array_set_release st hwf array index value_desc engASet,
   coerce_boolean_release st hwf desc boolValue,
   coerce_number_release st hwf desc engToNumber,
   coerce_string_release st hwf desc engToString,
   function_call_release st hwf func_value this_desc arg_descs engCall,
   function_call_new_release st hwf func_value arg_descs engNew⟩

theorem C2_inputs_released_witness :
    (mv8_object_set ⟨2, [(0, JSValue.str 5), (1, JSValue.obj 6)], 2, 0⟩ 9
        (ValueDesc.vRef .str 0) (ValueDesc.vRef .obj 1)
        (fun _ _ _ => EngineRes.ok ())).2.released = 2 ∧
    (mv8_object_set ⟨2, [(0, JSValue.str 5), (1, JSValue.obj 6)], 2, 0⟩ 9
        (ValueDesc.vRef .str 0) (ValueDesc.vRef .obj 1)
        (fun _ _ _ => EngineRes.ok ())).2.hasHandle 0 = false := by
  have h := C2_inputs_released ⟨2, [(0, JSValue.str 5), (1, JSValue.obj 6)], 2, 0⟩
    ⟨by decide, by decide⟩ 9 9 0 9
    (ValueDesc.vRef .str 0) (ValueDesc.vRef .obj 1) ValueDesc.vNull ValueDesc.vNull []
    (fun _ _ => EngineRes.ok JSValue.null) (fun _ _ _ => EngineRes.ok ())
    (fun _ _ => EngineRes.ok ()) (fun _ _ => EngineRes.ok true)
    (fun _ _ _ => EngineRes.ok ()) (fun _ => true) (fun _ => EngineRes.ok 0)
    (fun _ => EngineRes.ok JSValue.null) (fun _ _ _ => EngineRes.ok JSValue.null)
    (fun _ _ => EngineRes.ok 0)
  exact ⟨h.2.1.1, h.2.1.2 0 (by decide) (by decide)⟩

/-- Encoding a list of arguments produces one descriptor per argument. -/
theorem encodeArgs_length : ∀ (vs : List JSValue) (st : HandleState),
    (encodeArgs st vs).1.length = vs.length := by
  intro vs
  induction vs with
  | nil => intro st; rfl
  | cons v rest ih =>
      intro st
      simp only [encodeArgs, List.length_cons]
      rw [ih]

/-- C6: on each script-side invocation of a registered native-callback
function object, the trampoline encodes `this` and each positional argument
into TVDs in call order, invokes the host closure only through the single
process-wide dispatcher — passing the closure pointer and exactly those
encodings — and then, for the Outcome returned: decodes its TVD back into an
engine value and raises it as a thrown exception when `is_exception` is
nonzero, or returns it as the call's result otherwise. -/
theorem C6_trampoline (st : HandleState) (func : Nat) (thisVal : JSValue)
    (argVals : List JSValue)
    (wrapper : Nat → ValueDesc → List ValueDesc → TryCatchDesc) :
    (rust_callback st func thisVal argVals wrapper).2.2
      = ⟨func, (value_to_desc st thisVal).1,
          (encodeArgs (value_to_desc st thisVal).2 argVals).1⟩ ∧
    (rust_callback st func thisVal argVals wrapper).2.2.arg_descs.length
      = argVals.length ∧
    ((wrapper func (value_to_desc st thisVal).1
        (encodeArgs (value_to_desc st thisVal).2 argVals).1).is_exception ≠ 0 →
      (rust_callback st func thisVal argVals wrapper).1
        = CallOutcome.thrown
            (desc_to_value (encodeArgs (value_to_desc st thisVal).2 argVals).2
              (wrapper func (value_to_desc st thisVal).1
                (encodeArgs (value_to_desc st thisVal).2 argVals).1).value_desc).1) ∧
    ((wrapper func (value_to_desc st thisVal).1
        (encodeArgs (value_to_desc st thisVal).2 argVals).1).is_exception = 0 →
      (rust_callback st func thisVal argVals wrapper).1
        = CallOutcome.ret
            (desc_to_value (encodeArgs (value_to_desc st thisVal).2 argVals).2
              (wrapper func (value_to_desc st thisVal).1
                (encodeArgs (value_to_desc st thisVal).2 argVals).1).value_desc).1) ∧
    (rust_callback st func thisVal argVals wrapper).2.1
      = (desc_to_value (encodeArgs (value_to_desc st thisVal).2 argVals).2
          (wrapper func (value_to_desc st thisVal).1
            (encodeArgs (value_to_desc st thisVal).2 argVals).1).value_desc).2 := by
  refine ⟨rfl, ?_, ?_, ?_, rfl⟩
  · exact encodeArgs_length argVals (value_to_desc st thisVal).2
  · intro hne
    have hb : ((wrapper func (value_to_desc st thisVal).1
        (encodeArgs (value_to_desc st thisVal).2 argVals).1).is_exception != 0)
          = true := by simpa using hne
    simp [rust_callback, hb]
  · intro heq
    have hb : ((wrapper func (value_to_desc st thisVal).1
        (encodeArgs (value_to_desc st thisVal).2 argVals).1).is_exception != 0)
          = false := by simpa using heq
    simp [rust_callback, hb]

theorem C6_trampoline_witness :
    (rust_callback ⟨0, [], 0, 0⟩ 3 JSValue.null [JSValue.number 1]
        (fun _ _ _ => ⟨ValueDesc.vNumber 7, 1⟩)).1
      = CallOutcome.thrown (JSValue.number 7) ∧
    (rust_callback ⟨0, [], 0, 0⟩ 3 JSValue.null [JSValue.number 1]
        (fun _ _ _ => ⟨ValueDesc.vNumber 7, 0⟩)).1
      = CallOutcome.ret (JSValue.number 7) :=
  ⟨(C6_trampoline ⟨0, [], 0, 0⟩ 3 JSValue.null [JSValue.number 1]
      (fun _ _ _ => ⟨ValueDesc.vNumber 7, 1⟩)).2.2.1 (by decide),
   (C6_trampoline ⟨0, [], 0, 0⟩ 3 JSValue.null [JSValue.number 1]
      (fun _ _ _ => ⟨ValueDesc.vNumber 7, 0⟩)).2.2.2.1 rfl⟩

/-- C8: key enumeration with `include_inherited` zero returns only the
object's own enumerable keys in the engine's creation order; nonzero
additionally appends the inherited enumerable keys; in both cases the
successful result is a success Outcome whose TVD is an Array variant
carrying a fresh handle to the keys array. -/
theorem C8_object_keys (st : HandleState) (hwf : WF st) (o : ObjShape)
    (include_inherited : Nat) (arrRef : Nat) :
    (mv8_object_keys st o include_inherited arrRef none).out.is_exception = 0 ∧
    (mv8_object_keys st o include_inherited arrRef none).out.value_desc
      = ValueDesc.vRef .arr st.next ∧
    st.hasHandle st.next = false ∧
    (mv8_object_keys st o include_inherited arrRef none).st.lookup st.next
      = some (JSValue.arr arrRef) ∧
    (include_inherited = 0 →
      (mv8_object_keys st o include_inherited arrRef none).contents = o.ownKeys) ∧
    (include_inherited ≠ 0 →
      (mv8_object_keys st o include_inherited arrRef none).contents
        = o.ownKeys ++ o.inheritedKeys) := by
  refine ⟨rfl, rfl, hasHandle_next_false st hwf, ?_, ?_, ?_⟩
  · simp [mv8_object_keys, HandleState.alloc, HandleState.lookup,
      List.find?_cons_of_pos]
  · intro h0
    simp [mv8_object_keys, h0, getOwnPropertyNames]
  · intro hne
    have hb : (include_inherited != 0) = true := by simpa using hne
    simp [mv8_object_keys, hb, getPropertyNames]

theorem C8_object_keys_witness :
    (mv8_object_keys ⟨0, [], 0, 0⟩ ⟨["a", "b"], ["c"]⟩ 0 4 none).contents
      = ["a", "b"] ∧
    (mv8_object_keys ⟨0, [], 0, 0⟩ ⟨["a", "b"], ["c"]⟩ 1 4 none).contents
      = ["a", "b", "c"] ∧
    (mv8_object_keys ⟨0, [], 0, 0⟩ ⟨["a", "b"], ["c"]⟩ 0 4 none).out.is_exception
      = 0 :=
  ⟨(C8_object_keys ⟨0, [], 0, 0⟩ ⟨by decide, by decide⟩ ⟨["a", "b"], ["c"]⟩ 0 4).2.2.2.2.1 rfl,
   (C8_object_keys ⟨0, [], 0, 0⟩ ⟨by decide, by decide⟩ ⟨["a", "b"], ["c"]⟩ 1 4).2.2.2.2.2
     (by decide),
   (C8_object_keys ⟨0, [], 0, 0⟩ ⟨by decide, by decide⟩ ⟨["a", "b"], ["c"]⟩ 0 4).1⟩

/-- C9: boolean coercion never throws — `mv8_coerce_boolean` is total, has
no exception-reporting path (it returns a raw 0-or-1 byte rather than an
Outcome), and still consumes its input TVD's handle — in contrast to
numeric and string coercion, which return an exception Outcome whenever the
engine's coercion machinery throws. -/
theorem C9_coerce_boolean_total (st : HandleState) (desc : ValueDesc)
    (boolValue : JSValue → Bool)
    (engToNumber : JSValue → EngineRes Rat)
    (engToString : JSValue → EngineRes JSValue) (tc : TryCatchInfo) :
    (mv8_coerce_boolean st desc boolValue).1
      = (if boolValue (desc_to_value st desc).1 then 1 else 0) ∧
    ((mv8_coerce_boolean st desc boolValue).1 = 0 ∨
      (mv8_coerce_boolean st desc boolValue).1 = 1) ∧
    (mv8_coerce_boolean st desc boolValue).2.released
      = st.released + desc.refHandles.length ∧
    (engToNumber (desc_to_value st desc).1 = .thrown tc →
      (mv8_coerce_number st desc engToNumber).1.is_exception = 1) ∧
    (engToString (desc_to_value st desc).1 = .thrown tc →
      (mv8_coerce_string st desc engToString).1.is_exception = 1) := by
  refine ⟨rfl, ?_, desc_released st desc, ?_, ?_⟩
  · by_cases hb : boolValue (desc_to_value st desc).1 = true <;>
      simp [mv8_coerce_boolean, hb]
  · intro hE
    simp [mv8_coerce_number, hE, try_catch_err]
  · intro hE
    simp [mv8_coerce_string, hE, try_catch_err]

theorem C9_coerce_boolean_total_witness :
    ((mv8_coerce_boolean ⟨0, [], 0, 0⟩ ValueDesc.vNull (fun _ => false)).1 = 0 ∨
      (mv8_coerce_boolean ⟨0, [], 0, 0⟩ ValueDesc.vNull (fun _ => false)).1 = 1) ∧
    (mv8_coerce_number ⟨0, [], 0, 0⟩ ValueDesc.vNull
        (fun _ => EngineRes.thrown ⟨JSValue.null, false⟩)).1.is_exception = 1 :=
  ⟨(C9_coerce_boolean_total ⟨0, [], 0, 0⟩ ValueDesc.vNull (fun _ => false)
      (fun _ => EngineRes.thrown ⟨JSValue.null, false⟩)
      (fun _ => EngineRes.thrown ⟨JSValue.null, false⟩)
      ⟨JSValue.null, false⟩).2.1,
   (C9_coerce_boolean_total ⟨0, [], 0, 0⟩ ValueDesc.vNull (fun _ => false)
      (fun _ => EngineRes.thrown ⟨JSValue.null, false⟩)
      (fun _ => EngineRes.thrown ⟨JSValue.null, false⟩)
      ⟨JSValue.null, false⟩).2.2.2.1 rfl⟩

/-- C10: every value-less success is reported as the same Outcome —
`Undefined` tag with `is_exception = 0`: set-by-key, set-by-index and
delete-by-key all return it on success, it is identical to the success
Outcome of an operation that genuinely produced the undefined value, and it
carries no handle the caller must release. -/
theorem C10_noval_success (st : HandleState)
    (object array index : Nat) (key_desc value_desc : ValueDesc)
    (engSet : JSValue → JSValue → JSValue → EngineRes Unit)
    (engASet : JSValue → Nat → JSValue → EngineRes Unit)
    (engDelete : JSValue → JSValue → EngineRes Unit)
    (hset : ∀ a b c, engSet a b c = EngineRes.ok ())
    (haset : ∀ a i c, engASet a i c = EngineRes.ok ())
    (hdel : ∀ a b, engDelete a b = EngineRes.ok ()) :
    (mv8_object_set st object key_desc value_desc engSet).1 = try_catch_ok_noval ∧
    (mv8_array_set st array index value_desc engASet).1 = try_catch_ok_noval ∧
    (mv8_object_remove st object key_desc engDelete).1 = try_catch_ok_noval ∧
    try_catch_ok_noval = ⟨ValueDesc.vUndefined, 0⟩ ∧
    (try_catch_ok st JSValue.undefined).1 = try_catch_ok_noval ∧
    try_catch_ok_noval.value_desc.refHandles = [] := by
  refine ⟨?_, ?_, ?_, rfl, rfl, rfl⟩
  · simp [mv8_object_set, hset]
  · simp [mv8_array_set, haset]
  · simp [mv8_object_remove, hdel]

theorem C10_noval_success_witness :
    (mv8_object_set ⟨0, [], 0, 0⟩ 0 ValueDesc.vNull (ValueDesc.vNumber 3)
        (fun _ _ _ => EngineRes.ok ())).1 = try_catch_ok_noval ∧
    (mv8_object_remove ⟨0, [], 0, 0⟩ 0 ValueDesc.vNull
        (fun _ _ => EngineRes.ok ())).1 = try_catch_ok_noval :=
  ⟨(C10_noval_success ⟨0, [], 0, 0⟩ 0 0 0 ValueDesc.vNull (ValueDesc.vNumber 3)
      (fun _ _ _ => EngineRes.ok ()) (fun _ _ _ => EngineRes.ok ())
      (fun _ _ => EngineRes.ok ()) (fun _ _ _ => rfl) (fun _ _ _ => rfl)
      (fun _ _ => rfl)).1,
   (C10_noval_success ⟨0, [], 0, 0⟩ 0 0 0 ValueDesc.vNull (ValueDesc.vNumber 3)
      (fun _ _ _ => EngineRes.ok ()) (fun _ _ _ => EngineRes.ok ())
      (fun _ _ => EngineRes.ok ()) (fun _ _ _ => rfl) (fun _ _ _ => rfl)
      (fun _ _ => rfl)).2.2.1⟩

/-! ### Native-callback lifecycle lemmas (for C1 and C7) -/

theorem registerAll_spec (szRC : Nat) : ∀ (regs : List (Nat × Nat)) (st : CbState),
    (registerAll szRC st regs).live = st.live ++ newRecs st.nextId regs ∧
    (registerAll szRC st regs).nextId = st.nextId + regs.length ∧
    (registerAll szRC st regs).droppedIds = st.droppedIds ∧
    (registerAll szRC st regs).droppedFuncs = st.droppedFuncs := by
  intro regs
  induction regs with
  | nil =>
      intro st
      exact ⟨by simp [registerAll, newRecs], by simp [registerAll], rfl, rfl⟩
  | cons r rest ih =>
      intro st
      obtain ⟨f, s⟩ := r
      obtain ⟨h1, h2, h3, h4⟩ := ih (mv8_function_create szRC st f s).2
      have hstep : registerAll szRC st ((f, s) :: rest)
          = registerAll szRC (mv8_function_create szRC st f s).2 rest := rfl
      refine ⟨?_, ?_, ?_, ?_⟩
      · rw [hstep, h1]
        simp [mv8_function_create, newRecs]
      · rw [hstep, h2]
        simp [mv8_function_create]
        omega
      · rw [hstep, h3]
        exact rfl
      · rw [hstep, h4]
        exact rfl

theorem newRecs_ids : ∀ (regs : List (Nat × Nat)) (n : Nat),
    (newRecs n regs).map (fun r => r.id) = List.range' n regs.length := by
  intro regs
  induction regs with
  | nil => intro n; rfl
  | cons r rest ih =>
      intro n
      obtain ⟨f, s⟩ := r
      simp only [newRecs, List.map_cons, List.length_cons, List.range'_succ]
      rw [ih]

theorem newRecs_class : ∀ (regs : List (Nat × Nat)) (n : Nat),
    ∀ r ∈ newRecs n regs, r.classId = RUST_CALLBACK_CLASS_ID := by
  intro regs
  induction regs with
  | nil => intro n r hr; simp [newRecs] at hr
  | cons p rest ih =>
      intro n r hr
      obtain ⟨f, s⟩ := p
      rw [newRecs] at hr
      rcases List.mem_cons.mp hr with hr | hr
      · rw [hr]
      · exact ih (n + 1) r hr

/-- One collector firing only reshuffles a record id from the live side to
the finalization log (or does nothing if the handle no longer exists). -/
theorem drop_perm (szRC : Nat) (st : CbState) (i : Nat) :
    ((callback_drop szRC st i).live.map (fun r => r.id)
      ++ (callback_drop szRC st i).droppedIds).Perm
      (st.live.map (fun r => r.id) ++ st.droppedIds) := by
  rw [callback_drop]
  cases hF : st.live.find? (fun r => r.id == i) with
  | none => exact List.Perm.refl _
  | some cb =>
      have hmem := List.mem_of_find?_eq_some hF
      obtain ⟨a, l₁, l₂, hnl, hpa, heq, herase⟩ :=
        List.exists_of_eraseP (p := fun r => r.id == cb.id) hmem (by simp)
      have haid : a.id = cb.id := by simpa using hpa
      have hL : (callback_drop_inner szRC st cb).live = l₁ ++ l₂ := herase
      have hD : (callback_drop_inner szRC st cb).droppedIds
          = st.droppedIds ++ [cb.id] := rfl
      rw [hL, hD, heq]
      simp only [List.map_append, List.map_cons, List.append_assoc, List.cons_append]
      refine List.Perm.append_left (l₁.map (fun r => r.id)) ?_
      rw [← haid]
      have hsing := List.perm_append_singleton a.id
        (l₂.map (fun r => r.id) ++ st.droppedIds)
      simpa [List.append_assoc] using hsing

theorem drop_live_subset (szRC : Nat) (st : CbState) (i : Nat) :
    (callback_drop szRC st i).live ⊆ st.live := by
  rw [callback_drop]
  cases st.live.find? (fun r => r.id == i) with
  | none => exact fun r hr => hr
  | some cb => exact (List.eraseP_sublist _).subset

theorem collectMany_perm (szRC : Nat) : ∀ (sched : List Nat) (st : CbState),
    ((collectMany szRC st sched).live.map (fun r => r.id)
      ++ (collectMany szRC st sched).droppedIds).Perm
      (st.live.map (fun r => r.id) ++ st.droppedIds) := by
  intro sched
  induction sched with
  | nil => intro st; exact List.Perm.refl _
  | cons i rest ih =>
      intro st
      exact (ih (callback_drop szRC st i)).trans (drop_perm szRC st i)

theorem collectMany_live_subset (szRC : Nat) : ∀ (sched : List Nat) (st : CbState),
    (collectMany szRC st sched).live ⊆ st.live := by
  intro sched
  induction sched with
  | nil => intro st r hr; exact hr
  | cons i rest ih =>
      intro st r hr
      exact drop_live_subset szRC st i (ih (callback_drop szRC st i) hr)

theorem collectMany_funcs_len (szRC : Nat) : ∀ (sched : List Nat) (st : CbState),
    st.droppedFuncs.length = st.droppedIds.length →
    (collectMany szRC st sched).droppedFuncs.length
      = (collectMany szRC st sched).droppedIds.length := by
  intro sched
  induction sched with
  | nil => intro st h; exact h
  | cons i rest ih =>
      intro st h
      refine ih (callback_drop szRC st i) ?_
      rw [callback_drop]
      cases st.live.find? (fun r => r.id == i) with
      | none => exact h
      | some cb => simp [callback_drop_inner, h]

/-- The teardown sweep finalizes every remaining tagged record exactly once
and leaves none live. -/
theorem sweep_spec (szRC : Nat) : ∀ (l : List RustCallbackRec) (st : CbState),
    st.live = l → ((l.map (fun r => r.id)).Nodup) →
    (∀ r ∈ l, r.classId = RUST_CALLBACK_CLASS_ID) →
    (l.foldl (visitPersistentHandle szRC) st).live = [] ∧
    (l.foldl (visitPersistentHandle szRC) st).droppedIds
      = st.droppedIds ++ l.map (fun r => r.id) ∧
    (l.foldl (visitPersistentHandle szRC) st).droppedFuncs
      = st.droppedFuncs ++ l.map (fun r => r.func) := by
  intro l
  induction l with
  | nil => intro st hlive _ _; exact ⟨hlive, by simp, by simp⟩
  | cons cb tl ih =>
      intro st hlive hnd hcl
      rw [List.foldl_cons]
      have hclcb : cb.classId = RUST_CALLBACK_CLASS_ID := hcl cb (by simp)
      have hvisit : visitPersistentHandle szRC st cb = callback_drop_inner szRC st cb := by
        simp [visitPersistentHandle, hclcb]
      rw [hvisit]
      have hlive1 : (callback_drop_inner szRC st cb).live = tl := by
        simp only [callback_drop_inner]
        rw [hlive, List.eraseP_cons_of_pos (by simp)]
      rw [List.map_cons, List.nodup_cons] at hnd
      obtain ⟨h1, h2, h3⟩ := ih (callback_drop_inner szRC st cb) hlive1 hnd.2
        (fun r hr => hcl r (by simp [hr]))
      refine ⟨h1, ?_, ?_⟩
      · rw [h2]
        simp [callback_drop_inner]
      · rw [h3]
        simp [callback_drop_inner]

/-- C1: every registered native-callback closure is finalized exactly once
over its lifetime — whether by the collector's weak callback or by the
teardown sweep `mv8_interface_drop` runs before disposing the isolate.  For
any list of registrations and any collector schedule (including the empty
one): after teardown no record is live, the finalization log contains each
registered record id exactly once and nothing else, and the drop dispatcher
ran exactly once per registration. -/
theorem C1_finalize_exactly_once (szRC : Nat) (regs : List (Nat × Nat))
    (sched : List Nat) :
    (mv8_interface_drop szRC
        (collectMany szRC (registerAll szRC initCbState regs) sched)).live = [] ∧
    (mv8_interface_drop szRC
        (collectMany szRC (registerAll szRC initCbState regs) sched)).droppedIds.Nodup ∧
    (∀ i, i ∈ (mv8_interface_drop szRC
        (collectMany szRC (registerAll szRC initCbState regs) sched)).droppedIds
      ↔ i < regs.length) ∧
    (mv8_interface_drop szRC
        (collectMany szRC (registerAll szRC initCbState regs) sched)).droppedFuncs.length
      = regs.length := by
  obtain ⟨hl, hn, hdi, hdf⟩ := registerAll_spec szRC regs initCbState
  have hlive1 : (registerAll szRC initCbState regs).live = newRecs 0 regs := by
    rw [hl]; rfl
  have hids1 : (registerAll szRC initCbState regs).live.map (fun r => r.id)
      ++ (registerAll szRC initCbState regs).droppedIds
      = List.range' 0 regs.length := by
    rw [hlive1, hdi, newRecs_ids]
    simp [initCbState]
  -- state after the collector schedule
  have hperm : ((collectMany szRC (registerAll szRC initCbState regs) sched).live.map
        (fun r => r.id)
      ++ (collectMany szRC (registerAll szRC initCbState regs) sched).droppedIds).Perm
      (List.range' 0 regs.length) := by
    rw [← hids1]
    exact collectMany_perm szRC sched (registerAll szRC initCbState regs)
  have hnodup2 : ((collectMany szRC (registerAll szRC initCbState regs) sched).live.map
        (fun r => r.id)
      ++ (collectMany szRC (registerAll szRC initCbState regs) sched).droppedIds).Nodup :=
    hperm.symm.nodup (List.nodup_range' 0 regs.length)
  have hclass2 : ∀ r ∈ (collectMany szRC (registerAll szRC initCbState regs) sched).live,
      r.classId = RUST_CALLBACK_CLASS_ID := by
    intro r hr
    have hr1 := collectMany_live_subset szRC sched (registerAll szRC initCbState regs) hr
    rw [hlive1] at hr1
    exact newRecs_class regs 0 r hr1
  have hlivend : (((collectMany szRC (registerAll szRC initCbState regs) sched).live.map
      (fun r => r.id))).Nodup := hnodup2.of_append_left
  obtain ⟨hs1, hs2, hs3⟩ := sweep_spec szRC
    (collectMany szRC (registerAll szRC initCbState regs) sched).live
    (collectMany szRC (registerAll szRC initCbState regs) sched) rfl hlivend hclass2
  have hfinperm : (mv8_interface_drop szRC
      (collectMany szRC (registerAll szRC initCbState regs) sched)).droppedIds.Perm
      (List.range' 0 regs.length) := by
    rw [mv8_interface_drop, hs2]
    exact List.perm_append_comm.trans hperm
  refine ⟨?_, hfinperm.symm.nodup (List.nodup_range' 0 regs.length), ?_, ?_⟩
  · rw [mv8_interface_drop]
    exact hs1
  · intro i
    rw [hfinperm.mem_iff, List.mem_range'_1]
    omega
  · have hlen0 : (collectMany szRC (registerAll szRC initCbState regs) sched).droppedFuncs.length
        = (collectMany szRC (registerAll szRC initCbState regs) sched).droppedIds.length := by
      refine collectMany_funcs_len szRC sched (registerAll szRC initCbState regs) ?_
      rw [hdi, hdf]
      rfl
    have hidslen := hfinperm.length_eq
    rw [List.length_range'] at hidslen
    rw [mv8_interface_drop, hs2] at hidslen
    rw [mv8_interface_drop, hs3]
    simp only [List.length_append, List.length_map] at hidslen ⊢
    omega

/-- C7: registering a native callback charges external-memory accounting by
`sizeof(RustCallback) + func_size`, and finalizing the registration record
debits by exactly the amount credited (the size stored in the record at
registration), so any register-then-finalize pair nets zero. -/
theorem C7_extmem_balance (szRC : Nat) (st : CbState) (func func_size : Nat) :
    (mv8_function_create szRC st func func_size).2.extMem
      = st.extMem + (szRC + func_size : Nat) ∧
    (∀ st2 : CbState,
      (callback_drop_inner szRC st2
          (mv8_function_create szRC st func func_size).1).extMem
        = st2.extMem - (szRC + func_size : Nat)) ∧
    (callback_drop_inner szRC (mv8_function_create szRC st func func_size).2
        (mv8_function_create szRC st func func_size).1).extMem = st.extMem := by
  refine ⟨rfl, fun st2 => rfl, ?_⟩
  simp [mv8_function_create, callback_drop_inner]

end MiniV8
